import Mathlib

/-!
Verification of the NIT line-item parser of the Tender-AI-Agent repository.

The function parse_nit_items of src/main.py splits the input text on the
newline character, matches each stripped line against the anchored regex
for an item start (digits, one delimiter, whitespace, remainder), then
searches the remainder for the leftmost quantity-plus-unit match and
assembles an item record. The definitions below translate that code into
Lean on lists of characters. Character classes are modelled at the ASCII
level: the digit class is the characters 0 through 9, the whitespace class
is the six ASCII whitespace characters, and case-insensitive matching
lowercases ASCII letters, exactly the fragments of the Python classes the
program exercises on its documented inputs.
-/

/-- Item records produced by parse_nit_items, one per qualifying line. -/
structure Item where
  item_no : String
  description : String
  quantity : String
  unit : String
  specifications : String
deriving Repr, DecidableEq

/-- ASCII model of the Python whitespace class used by str.strip and by the
regex whitespace class. -/
def pws (c : Char) : Bool :=
  c = ' ' || c = '\t' || c = '\n' || c = '\r' || c = '\x0b' || c = '\x0c'

/-- ASCII model of the regex digit class: the characters 0 through 9. -/
def pdigit (c : Char) : Bool :=
  c.isDigit

/-- Python str.strip with no argument: drop leading and trailing whitespace. -/
def pstrip (cs : List Char) : List Char :=
  ((cs.dropWhile pws).reverse.dropWhile pws).reverse

/-- Python str.split on the newline character: the list of segments between
newline characters, with empty segments kept, and a single empty segment for
the empty input. -/
def splitNl : List Char → List (List Char)
  | [] => [[]]
  | c :: cs =>
    if c = '\n' then [] :: splitNl cs
    else
      match splitNl cs with
      | [] => [[c]]
      | l :: ls => (c :: l) :: ls

/-- Delimiter characters accepted directly after the item number, from the
character class of the item-start regex on line 93 of src/main.py. -/
def delims : List Char := ['.', ':', ')', ']']

/-- Model of the anchored item-start regex of line 93 of src/main.py applied
to the stripped line: one or more digits, exactly one delimiter, one or more
whitespace characters, then a nonempty remainder running to the end of the
line. Greedy digit and whitespace runs are maximal; when everything after
the delimiter is whitespace, the final whitespace character can still be
taken by the dot-plus group, mirroring regex backtracking. Faithful for
lines containing no newline character, which is every line produced by
splitting the input on newlines. -/
def itemStartMatch (cs : List Char) : Option (List Char × List Char) :=
  let ds := cs.takeWhile pdigit
  match cs.dropWhile pdigit with
  | [] => none
  | d :: r2 =>
    if ds.isEmpty then none
    else if d ∈ delims then
      let w := (r2.takeWhile pws).length
      if w = 0 then none
      else if w < r2.length then some (ds, r2.drop w)
      else if 2 ≤ w then some (ds, r2.drop (w - 1))
      else none
    else none

/-- Case-insensitive literal matcher, the ASCII model of a fixed pattern word
under re.IGNORECASE: on success it returns the matched surface characters of
the input together with the remainder. -/
def matchLit : List Char → List Char → Option (List Char × List Char)
  | [], cs => some ([], cs)
  | _ :: _, [] => none
  | p :: ps, c :: cs =>
    if c.toLower = p.toLower then
      match matchLit ps cs with
      | some (m, r) => some (c :: m, r)
      | none => none
    else none

/-- Match a unit word followed by an optional greedy plural letter s,
case-insensitively, as in the regex alternatives written with a trailing
question mark. -/
def matchWordOptS (w : List Char) (cs : List Char) : Option (List Char × List Char) :=
  match matchLit w cs with
  | none => none
  | some (m, r) =>
    match r with
    | [] => some (m, [])
    | c :: r2 => if c.toLower = 's' then some (m ++ [c], r2) else some (m, c :: r2)

/-- Ordered alternation of the unit vocabulary, exactly as written in the
quantity regex on line 101 of src/main.py: Nos? then Units? then Pcs? then
Meters? then KG then Kgs? then Litres? then Sets?. The first alternative
that matches wins; no word boundary follows the alternation. -/
def matchUnit (cs : List Char) : Option (List Char × List Char) :=
  (matchWordOptS ['N', 'o'] cs) <|>
  (matchWordOptS ['U', 'n', 'i', 't'] cs) <|>
  (matchWordOptS ['P', 'c'] cs) <|>
  (matchWordOptS ['M', 'e', 't', 'e', 'r'] cs) <|>
  (matchLit ['K', 'G'] cs) <|>
  (matchWordOptS ['K', 'g'] cs) <|>
  (matchWordOptS ['L', 'i', 't', 'r', 'e'] cs) <|>
  (matchWordOptS ['S', 'e', 't'] cs)

/-- Match the quantity part of the quantity regex at the start of cs: a
maximal digit run followed by an optional fractional part, a dot and a
nonempty digit run. Returns the quantity surface text and the remainder.
Shortening a greedy digit run can never rescue a failed attempt, since the
character after a shortened run is again a digit, so the maximal-run
translation of the regex is exact. -/
def qtyNum (cs : List Char) : Option (List Char × List Char) :=
  let ip := cs.takeWhile pdigit
  if ip.isEmpty then none
  else
    match cs.dropWhile pdigit with
    | '.' :: t =>
      let fp := t.takeWhile pdigit
      if fp.isEmpty then some (ip, '.' :: t)
      else some (ip ++ '.' :: fp, t.dropWhile pdigit)
    | r1 => some (ip, r1)

/-- Attempt the quantity-plus-unit regex at the start of cs: the number,
mandatory whitespace, then a unit alternative. Returns the quantity surface
text, the unit surface text and the remainder after the match. -/
def matchQtyAt (cs : List Char) : Option (List Char × List Char × List Char) :=
  match qtyNum cs with
  | none => none
  | some (q, r2) =>
    if (r2.takeWhile pws).isEmpty then none
    else
      match matchUnit (r2.dropWhile pws) with
      | none => none
      | some (u, rem) => some (q, u, rem)

/-- Leftmost search for the quantity-plus-unit regex, the model of re.search:
try every start position from left to right and keep the first success.
Returns the text before the match, the quantity surface text, the unit
surface text and the text after the match. -/
def searchQty : List Char → Option (List Char × List Char × List Char × List Char)
  | [] => none
  | c :: cs =>
    match matchQtyAt (c :: cs) with
    | some (q, u, rem) => some ([], q, u, rem)
    | none =>
      match searchQty cs with
      | some (b, q, u, rem) => some (c :: b, q, u, rem)
      | none => none

/-- Model of the per-line work of parse_nit_items, lines 90 to 125 of
src/main.py: strip the line, match the item-start regex, then either split
the remainder at the leftmost quantity-plus-unit match or default quantity
and unit to the string N/A, with the empty-description sentinel applied in
the record construction. -/
def parseLine (line : List Char) : Option Item :=
  match itemStartMatch (pstrip line) with
  | none => none
  | some (ds, rest) =>
    match searchQty rest with
    | some (b, q, u, a) =>
      let desc := pstrip b
      some { item_no := String.mk ds
             description := if desc.isEmpty then "No description found" else String.mk desc
             quantity := String.mk q
             unit := String.mk u
             specifications := String.mk (pstrip a) }
    | none =>
      some { item_no := String.mk ds
             description := if rest.isEmpty then "No description found" else String.mk rest
             quantity := "N/A"
             unit := "N/A"
             specifications := "" }

/-- Model of parse_nit_items, lines 70 to 127 of src/main.py: split the text
on newlines, process every line, and collect the produced items in order. -/
def parse_nit_items (text : String) : List Item :=
  (splitNl text.data).filterMap parseLine

/-- Lowercase surface forms of the unit vocabulary, the fourteen words named
by the spec invariant on the unit field. -/
def unitVocabLower : List String :=
  ["no", "nos", "unit", "units", "pc", "pcs", "meter", "meters",
   "kg", "kgs", "litre", "litres", "set", "sets"]

/-- Modelled on the spec wording of the item-start pattern, for comparison
with the regex translation itemStartMatch: some decomposition of the line
into a nonempty digit run, one delimiter, a nonempty whitespace run and a
nonempty remainder. -/
def specItemStart (cs : List Char) : Prop :=
  ∃ ds d ws r, ds ≠ [] ∧ (∀ c ∈ ds, pdigit c = true) ∧ d ∈ delims ∧
    ws ≠ [] ∧ (∀ c ∈ ws, pws c = true) ∧ r ≠ [] ∧ cs = ds ++ d :: (ws ++ r)

lemma pws_cases {c : Char} (h : pws c = true) :
    c = ' ' ∨ c = '\t' ∨ c = '\n' ∨ c = '\r' ∨ c = '\x0b' ∨ c = '\x0c' := by
  have := h
  simp only [pws, Bool.or_eq_true, decide_eq_true_eq] at this
  tauto

lemma pdigit_pws {c : Char} (h : pdigit c = true) : pws c = false := by
  cases hb : pws c with
  | false => rfl
  | true =>
    rcases pws_cases hb with h' | h' | h' | h' | h' | h' <;>
      subst h' <;> exact absurd h (by decide)

lemma delim_pdigit {d : Char} (h : d ∈ delims) : pdigit d = false := by
  fin_cases h <;> decide

lemma delim_pws {d : Char} (h : d ∈ delims) : pws d = false := by
  fin_cases h <;> decide

lemma dropWhile_eq_self_of (p : Char → Bool) (l : List Char)
    (h : ∀ c, l.head? = some c → p c = false) : l.dropWhile p = l := by
  cases l with
  | nil => rfl
  | cons a t => simp [List.dropWhile_cons, h a rfl]

lemma takeWhile_append_of (p : Char → Bool) :
    ∀ l1 l2 : List Char, (∀ c ∈ l1, p c = true) →
      (∀ c, l2.head? = some c → p c = false) →
      (l1 ++ l2).takeWhile p = l1 ∧ (l1 ++ l2).dropWhile p = l2 := by
  intro l1
  induction l1 with
  | nil =>
    intro l2 _ h2
    refine ⟨?_, dropWhile_eq_self_of p l2 h2⟩
    cases l2 with
    | nil => rfl
    | cons a t => simp [List.takeWhile_cons, h2 a rfl]
  | cons a l1 ih =>
    intro l2 h1 h2
    have ha : p a = true := h1 a (by simp)
    have := ih l2 (fun c hc => h1 c (by simp [hc])) h2
    simp [List.takeWhile_cons, List.dropWhile_cons, ha, this.1, this.2]

lemma pstrip_eq_self (cs : List Char)
    (h1 : ∀ c, cs.head? = some c → pws c = false)
    (h2 : ∀ c, cs.getLast? = some c → pws c = false) : pstrip cs = cs := by
  unfold pstrip
  rw [dropWhile_eq_self_of pws cs h1,
    dropWhile_eq_self_of pws cs.reverse
      (fun c hc => h2 c (by rwa [List.head?_reverse] at hc)),
    List.reverse_reverse]

lemma mk_ne_empty {cs : List Char} (h : cs ≠ []) : String.mk cs ≠ "" := by
  intro hc
  exact h (by simpa using congrArg String.data hc)

lemma matchLit_sound :
    ∀ p cs m r : List Char, matchLit p cs = some (m, r) →
      cs = m ++ r ∧ m.map Char.toLower = p.map Char.toLower := by
  intro p
  induction p with
  | nil =>
    intro cs m r h
    simp only [matchLit, Option.some.injEq, Prod.mk.injEq] at h
    obtain ⟨hm, hr⟩ := h
    subst hm; subst hr
    simp
  | cons q ps ih =>
    intro cs m r h
    cases cs with
    | nil => simp [matchLit] at h
    | cons c cs' =>
      simp only [matchLit] at h
      by_cases hc : c.toLower = q.toLower
      · rw [if_pos hc] at h
        cases hml : matchLit ps cs' with
        | none => rw [hml] at h; simp at h
        | some pr =>
          obtain ⟨m', r'⟩ := pr
          rw [hml] at h
          simp only [Option.some.injEq, Prod.mk.injEq] at h
          obtain ⟨hm, hr⟩ := h
          subst hm; subst hr
          obtain ⟨hcs, hmap⟩ := ih cs' m' r' hml
          subst hcs
          simp [hmap, hc]
      · rw [if_neg hc] at h
        simp at h

lemma matchWordOptS_sound {w cs m r : List Char}
    (h : matchWordOptS w cs = some (m, r)) :
    cs = m ++ r ∧ (m.map Char.toLower = w.map Char.toLower ∨
      m.map Char.toLower = w.map Char.toLower ++ ['s']) := by
  unfold matchWordOptS at h
  cases hml : matchLit w cs with
  | none => rw [hml] at h; simp at h
  | some pr =>
    obtain ⟨m0, r0⟩ := pr
    rw [hml] at h
    obtain ⟨hcs, hmap⟩ := matchLit_sound w cs m0 r0 hml
    cases r0 with
    | nil =>
      simp only [Option.some.injEq, Prod.mk.injEq] at h
      obtain ⟨hm, hr⟩ := h
      subst hm; subst hr
      exact ⟨hcs, Or.inl hmap⟩
    | cons c r2 =>
      simp only at h
      by_cases hc : c.toLower = 's'
      · rw [if_pos hc] at h
        simp only [Option.some.injEq, Prod.mk.injEq] at h
        obtain ⟨hm, hr⟩ := h
        subst hm; subst hr
        refine ⟨by simp [hcs], Or.inr ?_⟩
        simp [hmap, hc]
      · rw [if_neg hc] at h
        simp only [Option.some.injEq, Prod.mk.injEq] at h
        obtain ⟨hm, hr⟩ := h
        subst hm; subst hr
        exact ⟨hcs, Or.inl hmap⟩

lemma orElseSome {α : Type} {a b : Option α} {x : α} (h : (a <|> b) = some x) :
    a = some x ∨ (a = none ∧ b = some x) := by
  cases a <;> simp_all

lemma matchUnit_sound {cs u r : List Char} (h : matchUnit cs = some (u, r)) :
    cs = u ++ r ∧ String.mk (u.map Char.toLower) ∈ unitVocabLower := by
  unfold matchUnit at h
  rcases orElseSome h with h1 | ⟨-, h⟩
  · obtain ⟨hcs, hv⟩ := matchWordOptS_sound h1
    exact ⟨hcs, by rcases hv with hv | hv <;> rw [hv] <;> decide⟩
  rcases orElseSome h with h1 | ⟨-, h⟩
  · obtain ⟨hcs, hv⟩ := matchWordOptS_sound h1
    exact ⟨hcs, by rcases hv with hv | hv <;> rw [hv] <;> decide⟩
  rcases orElseSome h with h1 | ⟨-, h⟩
  · obtain ⟨hcs, hv⟩ := matchWordOptS_sound h1
    exact ⟨hcs, by rcases hv with hv | hv <;> rw [hv] <;> decide⟩
  rcases orElseSome h with h1 | ⟨-, h⟩
  · obtain ⟨hcs, hv⟩ := matchWordOptS_sound h1
    exact ⟨hcs, by rcases hv with hv | hv <;> rw [hv] <;> decide⟩
  rcases orElseSome h with h1 | ⟨-, h⟩
  · obtain ⟨hcs, hv⟩ := matchLit_sound _ _ _ _ h1
    exact ⟨hcs, by rw [hv]; decide⟩
  rcases orElseSome h with h1 | ⟨-, h⟩
  · obtain ⟨hcs, hv⟩ := matchWordOptS_sound h1
    exact ⟨hcs, by rcases hv with hv | hv <;> rw [hv] <;> decide⟩
  rcases orElseSome h with h1 | ⟨-, h⟩
  · obtain ⟨hcs, hv⟩ := matchWordOptS_sound h1
    exact ⟨hcs, by rcases hv with hv | hv <;> rw [hv] <;> decide⟩
  obtain ⟨hcs, hv⟩ := matchWordOptS_sound h
  exact ⟨hcs, by rcases hv with hv | hv <;> rw [hv] <;> decide⟩

lemma qtyNum_sound {cs q r2 : List Char} (h : qtyNum cs = some (q, r2)) :
    cs = q ++ r2 ∧ ∃ c q', q = c :: q' ∧ pdigit c = true := by
  have hcs : cs.takeWhile pdigit ++ cs.dropWhile pdigit = cs :=
    List.takeWhile_append_dropWhile pdigit cs
  simp only [qtyNum] at h
  split at h
  · exact absurd h (by simp)
  next hip =>
    have hipne : cs.takeWhile pdigit ≠ [] := by
      simpa [List.isEmpty_iff] using hip
    obtain ⟨c, ip', hip'⟩ := List.exists_cons_of_ne_nil hipne
    have hc : pdigit c = true :=
      List.mem_takeWhile_imp (by rw [hip']; simp)
    split at h
    next t heq =>
      have ht : t.takeWhile pdigit ++ t.dropWhile pdigit = t :=
        List.takeWhile_append_dropWhile pdigit t
      split at h
      · simp only [Option.some.injEq, Prod.mk.injEq] at h
        obtain ⟨hq, hr⟩ := h
        subst hq; subst hr
        refine ⟨?_, c, ip', hip', hc⟩
        conv_lhs => rw [← hcs, heq]
      · simp only [Option.some.injEq, Prod.mk.injEq] at h
        obtain ⟨hq, hr⟩ := h
        subst hq; subst hr
        constructor
        · conv_lhs => rw [← hcs, heq, ← ht]
          simp
        · exact ⟨c, ip' ++ '.' :: t.takeWhile pdigit, by rw [hip']; simp, hc⟩
    next heq =>
      simp only [Option.some.injEq, Prod.mk.injEq] at h
      obtain ⟨hq, hr⟩ := h
      subst hq; subst hr
      exact ⟨hcs.symm, c, ip', hip', hc⟩

lemma matchQtyAt_sound {cs q u rem : List Char}
    (h : matchQtyAt cs = some (q, u, rem)) :
    ∃ w, w ≠ [] ∧ (∀ c ∈ w, pws c = true) ∧ cs = q ++ w ++ u ++ rem ∧
      (∃ c q', q = c :: q' ∧ pdigit c = true) ∧
      String.mk (u.map Char.toLower) ∈ unitVocabLower := by
  simp only [matchQtyAt] at h
  split at h
  · exact absurd h (by simp)
  next q0 r2 hqn =>
    split at h
    · exact absurd h (by simp)
    next hw =>
      split at h
      · exact absurd h (by simp)
      next u0 rem0 hu =>
        simp only [Option.some.injEq, Prod.mk.injEq] at h
        obtain ⟨hq, hu', hr⟩ := h
        subst hq; subst hu'; subst hr
        obtain ⟨hcs, hhead⟩ := qtyNum_sound hqn
        obtain ⟨hr2, hvocab⟩ := matchUnit_sound hu
        refine ⟨r2.takeWhile pws, by simpa [List.isEmpty_iff] using hw,
          fun c hc => List.mem_takeWhile_imp hc, ?_, hhead, hvocab⟩
        rw [hcs]
        conv_lhs => rw [← List.takeWhile_append_dropWhile pws r2, hr2]
        simp

lemma searchQty_sound :
    ∀ cs b q u rem : List Char, searchQty cs = some (b, q, u, rem) →
      (∃ w, w ≠ [] ∧ (∀ c ∈ w, pws c = true) ∧ cs = b ++ q ++ w ++ u ++ rem ∧
        (∃ c q', q = c :: q' ∧ pdigit c = true) ∧
        String.mk (u.map Char.toLower) ∈ unitVocabLower) ∧
      ∀ j < b.length, matchQtyAt (cs.drop j) = none := by
  intro cs
  induction cs with
  | nil => intro b q u rem h; simp [searchQty] at h
  | cons c cs' ih =>
    intro b q u rem h
    simp only [searchQty] at h
    split at h
    next q0 u0 r0 hm =>
      simp only [Option.some.injEq, Prod.mk.injEq] at h
      obtain ⟨hb, hq, hu, hr⟩ := h
      subst hb; subst hq; subst hu; subst hr
      obtain ⟨w, hw1, hw2, hdec, hhead, hvocab⟩ := matchQtyAt_sound hm
      exact ⟨⟨w, hw1, hw2, by simpa using hdec, hhead, hvocab⟩, by simp⟩
    next hm =>
      split at h
      · next b' q' u' r' hs =>
        simp only [Option.some.injEq, Prod.mk.injEq] at h
        obtain ⟨hb, hq, hu, hr⟩ := h
        subst hb; subst hq; subst hu; subst hr
        obtain ⟨⟨w, hw1, hw2, hdec, hhead, hvocab⟩, hnone⟩ := ih b' q' u' r' hs
        refine ⟨⟨w, hw1, hw2, by simp [hdec], hhead, hvocab⟩, ?_⟩
        intro j hj
        cases j with
        | zero => simpa using hm
        | succ j' =>
          have hj' : j' < b'.length := by simpa using hj
          simpa using hnone j' hj'
      · exact absurd h (by simp)

lemma splitNl_ne_nil : ∀ cs : List Char, splitNl cs ≠ [] := by
  intro cs
  cases cs with
  | nil => simp [splitNl]
  | cons c cs' =>
    simp only [splitNl]
    split
    · simp
    · split <;> simp

lemma splitNl_append : ∀ a b : List Char,
    splitNl (a ++ '\n' :: b) = splitNl a ++ splitNl b := by
  intro a b
  induction a with
  | nil => simp [splitNl]
  | cons c a' ih =>
    show splitNl (c :: (a' ++ '\n' :: b)) = splitNl (c :: a') ++ splitNl b
    by_cases hc : c = '\n'
    · subst hc
      simp only [splitNl, if_pos rfl, ih]
      rfl
    · obtain ⟨l, ls, hls⟩ := List.exists_cons_of_ne_nil (splitNl_ne_nil a')
      simp only [splitNl, if_neg hc, ih, hls, List.cons_append]

lemma splitNl_no_nl : ∀ cs : List Char, '\n' ∉ cs → splitNl cs = [cs] := by
  intro cs
  induction cs with
  | nil => intro; rfl
  | cons c cs' ih =>
    intro h
    have hc : c ≠ '\n' := fun hx => h (by simp [hx])
    have h' : '\n' ∉ cs' := fun hx => h (by simp [hx])
    simp only [splitNl, if_neg hc, ih h']

lemma drop_takeWhile_len (p : Char → Bool) :
    ∀ l : List Char, l.drop (l.takeWhile p).length = l.dropWhile p := by
  intro l
  induction l with
  | nil => rfl
  | cons a t ih =>
    by_cases ha : p a
    · simp [List.takeWhile_cons, List.dropWhile_cons, ha, ih]
    · simp [List.takeWhile_cons, List.dropWhile_cons, ha]

lemma itemStartMatch_sound {cs ds rest : List Char}
    (h : itemStartMatch cs = some (ds, rest)) :
    ds ≠ [] ∧ (∀ c ∈ ds, pdigit c = true) ∧ rest ≠ [] ∧ specItemStart cs := by
  have hcs : cs.takeWhile pdigit ++ cs.dropWhile pdigit = cs :=
    List.takeWhile_append_dropWhile pdigit cs
  simp only [itemStartMatch] at h
  split at h
  · exact absurd h (by simp)
  next d r2 heq =>
    split at h
    · exact absurd h (by simp)
    next hds =>
      have hdsne : cs.takeWhile pdigit ≠ [] := by
        simpa [List.isEmpty_iff] using hds
      have hdig : ∀ c ∈ cs.takeWhile pdigit, pdigit c = true :=
        fun c hc => List.mem_takeWhile_imp hc
      split at h
      next hdel =>
        have hr2 : r2.takeWhile pws ++ r2.dropWhile pws = r2 :=
          List.takeWhile_append_dropWhile pws r2
        split at h
        · exact absurd h (by simp)
        next hw0 =>
          have hwne : r2.takeWhile pws ≠ [] := by
            intro hx
            exact hw0 (by simp [hx])
          split at h
          next hwlt =>
            simp only [Option.some.injEq, Prod.mk.injEq] at h
            obtain ⟨hd, hr⟩ := h
            subst hd; subst hr
            rw [drop_takeWhile_len pws r2]
            have hrne : r2.dropWhile pws ≠ [] := by
              intro hx
              have hlen := congrArg List.length hr2
              simp [hx] at hlen
              omega
            refine ⟨hdsne, hdig, hrne, cs.takeWhile pdigit, d, r2.takeWhile pws,
              r2.dropWhile pws, hdsne, hdig, hdel, hwne,
              fun c hc => List.mem_takeWhile_imp hc, hrne, ?_⟩
            rw [hr2, ← heq, hcs]
          next hwge =>
            split at h
            next hw2 =>
              simp only [Option.some.injEq, Prod.mk.injEq] at h
              obtain ⟨hd, hr⟩ := h
              subst hd; subst hr
              have hwall : (r2.takeWhile pws).length = r2.length := by
                have hle := r2.takeWhile_prefix (p := pws) |>.length_le
                omega
              have heqr : r2.takeWhile pws = r2 :=
                (List.takeWhile_prefix pws).eq_of_length hwall
              have hall : ∀ c ∈ r2, pws c = true := by
                intro c hc
                exact List.mem_takeWhile_imp (heqr ▸ hc)
              have hrne : r2.drop ((r2.takeWhile pws).length - 1) ≠ [] := by
                intro hx
                have hlen := congrArg List.length hx
                simp only [List.length_drop, List.length_nil] at hlen
                omega
              have htd : r2.take ((r2.takeWhile pws).length - 1) ++
                  r2.drop ((r2.takeWhile pws).length - 1) = r2 :=
                List.take_append_drop _ r2
              have hwsne : r2.take ((r2.takeWhile pws).length - 1) ≠ [] := by
                intro hx
                have hlen := congrArg List.length hx
                simp only [List.length_take, List.length_nil] at hlen
                omega
              refine ⟨hdsne, hdig, hrne, cs.takeWhile pdigit, d,
                r2.take ((r2.takeWhile pws).length - 1),
                r2.drop ((r2.takeWhile pws).length - 1), hdsne, hdig, hdel,
                hwsne, fun c hc => hall c (List.take_subset _ _ hc), hrne, ?_⟩
              rw [htd, ← heq, hcs]
            · exact absurd h (by simp)
      · exact absurd h (by simp)

lemma parseLine_facts {line : List Char} {item : Item}
    (h : parseLine line = some item) :
    item.description ≠ "" ∧ (item.quantity = "N/A" ↔ item.unit = "N/A") ∧
    (item.quantity = "N/A" → item.specifications = "") ∧
    (item.unit = "N/A" ∨
      String.mk (item.unit.data.map Char.toLower) ∈ unitVocabLower) := by
  simp only [parseLine] at h
  split at h
  · exact absurd h (by simp)
  next ds rest hism =>
    split at h
    next b q u a hsq =>
      simp only [Option.some.injEq] at h
      subst h
      obtain ⟨⟨w, -, -, -, ⟨c, q', hq, hcdig⟩, hvocab⟩, -⟩ :=
        searchQty_sound rest b q u a hsq
      have hqne : String.mk q ≠ "N/A" := by
        intro hx
        have hdq : q = ['N', '/', 'A'] := by
          simpa using congrArg String.data hx
        rw [hdq] at hq
        obtain ⟨hc1, -⟩ := List.cons.inj hq
        rw [← hc1] at hcdig
        exact absurd hcdig (by decide)
      have hune : String.mk u ≠ "N/A" := by
        intro hx
        have hdu : u = ['N', '/', 'A'] := by
          simpa using congrArg String.data hx
        rw [hdu] at hvocab
        exact absurd hvocab (by decide)
      refine ⟨?_, iff_of_false hqne hune, fun hx => absurd hx hqne, Or.inr hvocab⟩
      by_cases hde : (pstrip b).isEmpty
      · simp [hde]
      · simp only [hde, Bool.false_eq_true, if_false]
        exact mk_ne_empty (by simpa [List.isEmpty_iff] using hde)
    next hsq =>
      simp only [Option.some.injEq] at h
      subst h
      refine ⟨?_, Iff.rfl, fun _ => rfl, Or.inl rfl⟩
      by_cases hre : rest.isEmpty
      · simp [hre]
      · simp only [hre, Bool.false_eq_true, if_false]
        exact mk_ne_empty (by simpa [List.isEmpty_iff] using hre)

lemma mem_parse_nit_items {s : String} {item : Item}
    (h : item ∈ parse_nit_items s) :
    ∃ l ∈ splitNl s.data, parseLine l = some item := by
  simpa [parse_nit_items, List.mem_filterMap] using h

lemma pstrip_construct {ds : List Char} {d : Char} {ws text : List Char}
    (hds : ds ≠ []) (hdig : ∀ c ∈ ds, pdigit c = true)
    (htext : text ≠ []) (htl : ∀ c, text.getLast? = some c → pws c = false) :
    pstrip (ds ++ d :: (ws ++ text)) = ds ++ d :: (ws ++ text) := by
  apply pstrip_eq_self
  · intro c hc
    obtain ⟨c0, ds', hds'⟩ := List.exists_cons_of_ne_nil hds
    subst hds'
    simp only [List.cons_append, List.head?_cons, Option.some.injEq] at hc
    exact hc ▸ pdigit_pws (hdig c0 (by simp))
  · intro c hc
    have h1 : (ds ++ d :: (ws ++ text)).getLast? = text.getLast? := by
      rw [List.getLast?_append_of_ne_nil ds (by simp)]
      have hsplit : d :: (ws ++ text) = (d :: ws) ++ text := by simp
      rw [hsplit, List.getLast?_append_of_ne_nil _ htext]
    rw [h1] at hc
    exact htl c hc

lemma itemStartMatch_construct {ds : List Char} {d : Char} {ws text : List Char}
    (hds : ds ≠ []) (hdig : ∀ c ∈ ds, pdigit c = true) (hd : d ∈ delims)
    (hws : ws ≠ []) (hwsall : ∀ c ∈ ws, pws c = true)
    (htext : text ≠ []) (hth : ∀ c, text.head? = some c → pws c = false) :
    itemStartMatch (ds ++ d :: (ws ++ text)) = some (ds, text) := by
  have htw := takeWhile_append_of pdigit ds (d :: (ws ++ text)) hdig
    (fun c hc => by
      simp only [List.head?_cons, Option.some.injEq] at hc
      subst hc
      exact delim_pdigit hd)
  have htw2 := takeWhile_append_of pws ws text hwsall hth
  have hdse : ds.isEmpty = false := by
    simp [List.isEmpty_iff, hds]
  have hwlen : ¬ws.length = 0 := by
    simpa using fun hx => hws (List.length_eq_zero.mp hx)
  have hwlt : ws.length < (ws ++ text).length := by
    rw [List.length_append]
    have := List.length_pos.mpr htext
    omega
  simp only [itemStartMatch, htw.1, htw.2, hdse, Bool.false_eq_true, if_false,
    if_pos hd, htw2.1, if_neg hwlen, if_pos hwlt, List.drop_left]

/-- Claim C9: the concrete two-line scenario. The input with the Steel Rod
line and the Paint Brush line yields exactly the two stated items in order,
the first with detected quantity 25 and unit Kg, the second with the
defaults. -/
theorem C9_scenario :
    parse_nit_items "1. Steel Rod 25 Kg heavy duty\n2. Paint Brush\n" =
      [{ item_no := "1", description := "Steel Rod", quantity := "25",
         unit := "Kg", specifications := "heavy duty" },
       { item_no := "2", description := "Paint Brush", quantity := "N/A",
         unit := "N/A", specifications := "" }] := by decide

/-- Claim C1, counterexample: the claim says a token 25 Kgs yields unit Kgs
verbatim, but the KG alternative of the regex precedes Kgs, so the code
captures only Kg and the trailing s lands in the specifications field. -/
theorem C1_counterexample :
    parse_nit_items "1. Rod 25 Kgs heavy" =
      [{ item_no := "1", description := "Rod", quantity := "25",
         unit := "Kg", specifications := "s heavy" }] ∧
    ("Kg" : String) ≠ "Kgs" := by decide

/-- Claim C1 as amended: on an item-start line whose remainder has a
quantity-plus-unit match, the unit field is exactly the surface text the
winning alternative captured, casing preserved as in the input, and the
specifications field is the whitespace-trimmed text that starts immediately
after that captured text; the remainder decomposes verbatim as prefix,
quantity, whitespace, unit, suffix. -/
theorem C1_unit_verbatim (line ds rest b q u a : List Char)
    (_hnl : '\n' ∉ line)
    (him : itemStartMatch (pstrip line) = some (ds, rest))
    (hsq : searchQty rest = some (b, q, u, a)) :
    ∃ item w, parseLine line = some item ∧ item.unit = String.mk u ∧
      item.specifications = String.mk (pstrip a) ∧
      w ≠ [] ∧ (∀ c ∈ w, pws c = true) ∧ rest = b ++ q ++ w ++ u ++ a := by
  obtain ⟨⟨w, hw1, hw2, hdec, -, -⟩, -⟩ := searchQty_sound rest b q u a hsq
  refine ⟨{ item_no := String.mk ds,
            description := if (pstrip b).isEmpty then "No description found"
              else String.mk (pstrip b),
            quantity := String.mk q,
            unit := String.mk u,
            specifications := String.mk (pstrip a) }, w, ?_, rfl, rfl,
    hw1, hw2, hdec⟩
  simp only [parseLine, him, hsq]

/-- Claim C2, counterexample: the unit words are matched with no word
boundary, so in 10 Noxious the alternative Nos? matches the prefix No of
the unrecognized word Noxious, and the item does not get the N/A
defaults the claim requires. -/
theorem C2_counterexample :
    parse_nit_items "1. Foo 10 Noxious" =
      [{ item_no := "1", description := "Foo", quantity := "10",
         unit := "No", specifications := "xious" }] ∧
    ("No" : String) ≠ "N/A" := by decide

/-- Claim C2 as amended: when the remainder of an item-start line admits no
quantity-plus-unit match anywhere, the item carries quantity N/A, unit N/A,
empty specifications, and the whole remainder as description; the remainder
10 boxes is such a case, since no vocabulary word is a prefix of boxes. -/
theorem C2_no_match_defaults :
    (∀ line ds rest : List Char, '\n' ∉ line →
      itemStartMatch (pstrip line) = some (ds, rest) →
      searchQty rest = none →
      parseLine line = some ({ item_no := String.mk ds
                               description := String.mk rest
                               quantity := "N/A"
                               unit := "N/A"
                               specifications := "" } : Item)) ∧
    searchQty ("Foo 10 boxes".data) = none ∧
    parse_nit_items "1. Foo 10 boxes" =
      [{ item_no := "1", description := "Foo 10 boxes", quantity := "N/A",
         unit := "N/A", specifications := "" }] := by
  refine ⟨?_, by decide, by decide⟩
  intro line ds rest _hnl him hsq
  obtain ⟨-, -, hrne, -⟩ := itemStartMatch_sound him
  have hre : rest.isEmpty = false := by simp [List.isEmpty_iff, hrne]
  simp only [parseLine, him, hsq, hre, Bool.false_eq_true, if_false]

/-- Claim C6: quantity and unit are detected or defaulted in lockstep, and
a defaulted quantity forces empty specifications. A detected quantity
always starts with a digit and a detected unit always lowercases into the
unit vocabulary, so neither can be the string N/A. -/
theorem C6_lockstep (s : String) (item : Item) (h : item ∈ parse_nit_items s) :
    (item.quantity = "N/A" ↔ item.unit = "N/A") ∧
    (item.quantity = "N/A" → item.specifications = "") := by
  obtain ⟨l, -, hp⟩ := mem_parse_nit_items h
  exact ⟨(parseLine_facts hp).2.1, (parseLine_facts hp).2.2.1⟩

/-- Witness for C6 at a concrete input: the line 7. Hammer has no quantity
match, so both fields are N/A and the specifications are empty. -/
theorem C6_witness :
    ({ item_no := "7", description := "Hammer", quantity := "N/A",
       unit := "N/A", specifications := "" } : Item) ∈
        parse_nit_items "7. Hammer" ∧
    ((("N/A" : String) = "N/A" ↔ ("N/A" : String) = "N/A") ∧
      (("N/A" : String) = "N/A" → ("" : String) = "")) :=
  ⟨by decide,
    C6_lockstep "7. Hammer"
      { item_no := "7", description := "Hammer", quantity := "N/A",
        unit := "N/A", specifications := "" } (by decide)⟩

/-- Claim C7: the description field of a produced item is never the empty
string, and the concrete Diesel line receives the sentinel. -/
theorem C7_description_nonempty :
    (∀ (s : String), ∀ item ∈ parse_nit_items s, item.description ≠ "") ∧
    parse_nit_items "5. 100 Litres Diesel\n" =
      [{ item_no := "5", description := "No description found",
         quantity := "100", unit := "Litres", specifications := "Diesel" }] := by
  refine ⟨?_, by decide⟩
  intro s item h
  obtain ⟨l, -, hp⟩ := mem_parse_nit_items h
  exact (parseLine_facts hp).1

/-- Witness for C7 at a concrete input. -/
theorem C7_witness :
    ({ item_no := "9", description := "Nut", quantity := "N/A",
       unit := "N/A", specifications := "" } : Item) ∈ parse_nit_items "9. Nut" ∧
    ({ item_no := "9", description := "Nut", quantity := "N/A",
       unit := "N/A", specifications := "" } : Item).description ≠ "" :=
  ⟨by decide, C7_description_nonempty.1 "9. Nut" _ (by decide)⟩

/-- Claim C10: every produced unit field is either N/A or lowercases into
the fixed fourteen-word vocabulary. -/
theorem C10_unit_vocab (s : String) (item : Item) (h : item ∈ parse_nit_items s) :
    item.unit = "N/A" ∨
      String.mk (item.unit.data.map Char.toLower) ∈ unitVocabLower := by
  obtain ⟨l, -, hp⟩ := mem_parse_nit_items h
  exact (parseLine_facts hp).2.2.2

/-- Witness for C10 at a concrete input with an upper-case unit surface. -/
theorem C10_witness :
    ({ item_no := "6", description := "Oil", quantity := "12",
       unit := "LITRES", specifications := "" } : Item) ∈
        parse_nit_items "6. Oil 12 LITRES" ∧
    (({ item_no := "6", description := "Oil", quantity := "12",
        unit := "LITRES", specifications := "" } : Item).unit = "N/A" ∨
      String.mk (("LITRES" : String).data.map Char.toLower) ∈ unitVocabLower) :=
  ⟨by decide, C10_unit_vocab "6. Oil 12 LITRES" _ (by decide)⟩

/-- Witness for C1 at a concrete input: the line 1. Cable 5 Meters armoured
decomposes with unit Meters captured verbatim and the specifications
starting right after it. -/
theorem C1_witness :
    '\n' ∉ ("1. Cable 5 Meters armoured".data : List Char) ∧
    itemStartMatch (pstrip "1. Cable 5 Meters armoured".data) =
      some ("1".data, "Cable 5 Meters armoured".data) ∧
    searchQty "Cable 5 Meters armoured".data =
      some ("Cable ".data, "5".data, "Meters".data, " armoured".data) ∧
    ∃ item w, parseLine "1. Cable 5 Meters armoured".data = some item ∧
      item.unit = String.mk "Meters".data ∧
      item.specifications = String.mk (pstrip " armoured".data) ∧
      w ≠ [] ∧ (∀ c ∈ w, pws c = true) ∧
      "Cable 5 Meters armoured".data =
        "Cable ".data ++ "5".data ++ w ++ "Meters".data ++ " armoured".data :=
  ⟨by decide, by decide, by decide,
    C1_unit_verbatim "1. Cable 5 Meters armoured".data "1".data
      "Cable 5 Meters armoured".data "Cable ".data "5".data "Meters".data
      " armoured".data (by decide) (by decide) (by decide)⟩

/-- Witness for C2 at a concrete input: the line 3. Plain text has no
quantity match and gets the default fields. -/
theorem C2_witness :
    '\n' ∉ ("3. Plain text".data : List Char) ∧
    itemStartMatch (pstrip "3. Plain text".data) =
      some ("3".data, "Plain text".data) ∧
    searchQty "Plain text".data = none ∧
    parseLine "3. Plain text".data =
      some ({ item_no := String.mk "3".data
              description := String.mk "Plain text".data
              quantity := "N/A"
              unit := "N/A"
              specifications := "" } : Item) :=
  ⟨by decide, by decide, by decide,
    C2_no_match_defaults.1 "3. Plain text".data "3".data "Plain text".data
      (by decide) (by decide) (by decide)⟩

/-- Claim C3, counterexample: on the line 4. 10 Nos the trimmed prefix
before the token is empty, and the code substitutes the sentinel, so the
description does not equal the trimmed prefix the claim requires. -/
theorem C3_counterexample :
    parse_nit_items "4. 10 Nos" =
      [{ item_no := "4", description := "No description found",
         quantity := "10", unit := "Nos", specifications := "" }] ∧
    ("No description found" : String) ≠ "" := by decide

/-- Claim C3 as amended: for a well-formed item-start line built from a
digit run, a delimiter, whitespace and a remainder whose search succeeds,
the item number is the digit run verbatim, the quantity is the matched
numeric literal verbatim, the description is the whitespace-trimmed prefix
before the leftmost match when that prefix does not trim to empty, and the
specifications are the whitespace-trimmed suffix after the matched portion;
no earlier position of the remainder admits a match, and the remainder
decomposes verbatim around the match. -/
theorem C3_decomposition (ds : List Char) (d : Char) (ws text b q u a : List Char)
    (hds : ds ≠ []) (hdig : ∀ c ∈ ds, pdigit c = true) (hd : d ∈ delims)
    (hws : ws ≠ []) (hwsall : ∀ c ∈ ws, pws c = true)
    (_hnlw : '\n' ∉ ws) (_hnlt : '\n' ∉ text)
    (hth : ∀ c, text.head? = some c → pws c = false)
    (htl : ∀ c, text.getLast? = some c → pws c = false)
    (hsq : searchQty text = some (b, q, u, a))
    (hbne : pstrip b ≠ []) :
    parseLine (ds ++ d :: (ws ++ text)) =
      some ({ item_no := String.mk ds
              description := String.mk (pstrip b)
              quantity := String.mk q
              unit := String.mk u
              specifications := String.mk (pstrip a) } : Item) ∧
    (∀ j < b.length, matchQtyAt (text.drop j) = none) ∧
    ∃ w, w ≠ [] ∧ (∀ c ∈ w, pws c = true) ∧ text = b ++ q ++ w ++ u ++ a := by
  have htext : text ≠ [] := by
    intro hx
    rw [hx] at hsq
    simp [searchQty] at hsq
  obtain ⟨⟨w, hw1, hw2, hdec, -, -⟩, hleft⟩ := searchQty_sound text b q u a hsq
  have hps := @pstrip_construct ds d ws text hds hdig htext htl
  have him := @itemStartMatch_construct ds d ws text hds hdig hd hws hwsall htext hth
  refine ⟨?_, hleft, w, hw1, hw2, hdec⟩
  have hbe : (pstrip b).isEmpty = false := by
    simp [List.isEmpty_iff, hbne]
  simp only [parseLine, hps, him, hsq, hbe, Bool.false_eq_true, if_false]

/-- Witness for C3 at a concrete input with preserved leading zeros: the
line 007. Widget 2 Sets x splits into description Widget, quantity 2, unit
Sets and specifications x. -/
theorem C3_witness :
    parseLine ("007".data ++ '.' :: (" ".data ++ "Widget 2 Sets x".data)) =
      some ({ item_no := String.mk "007".data
              description := String.mk (pstrip "Widget ".data)
              quantity := String.mk "2".data
              unit := String.mk "Sets".data
              specifications := String.mk (pstrip " x".data) } : Item) ∧
    (∀ j < ("Widget ".data : List Char).length,
      matchQtyAt ("Widget 2 Sets x".data.drop j) = none) ∧
    ∃ w, w ≠ [] ∧ (∀ c ∈ w, pws c = true) ∧
      "Widget 2 Sets x".data =
        "Widget ".data ++ "2".data ++ w ++ "Sets".data ++ " x".data :=
  C3_decomposition "007".data '.' " ".data "Widget 2 Sets x".data
    "Widget ".data "2".data "Sets".data " x".data
    (by decide) (by decide) (by decide) (by decide) (by decide)
    (by decide) (by decide)
    (by
      intro c hc
      have h1 : ("Widget 2 Sets x".data : List Char).head? = some 'W' := by decide
      rw [h1] at hc
      obtain rfl : 'W' = c := Option.some.inj hc
      decide)
    (by
      intro c hc
      have h1 : ("Widget 2 Sets x".data : List Char).getLast? = some 'x' := by decide
      rw [h1] at hc
      obtain rfl : 'x' = c := Option.some.inj hc
      decide)
    (by decide) (by decide)

/-- Claim C4: the parser is total by construction in this model; the empty
string yields no items, and an input without line breaks is treated as a
single line whose single parse attempt decides the whole output. -/
theorem C4_total :
    parse_nit_items "" = [] ∧
    ∀ s : String, '\n' ∉ s.data →
      parse_nit_items s = (parseLine s.data).toList := by
  refine ⟨by decide, ?_⟩
  intro s hnl
  unfold parse_nit_items
  rw [splitNl_no_nl s.data hnl]
  cases h : parseLine s.data <;> simp [h]

/-- Witness for C4 at a concrete newline-free input. -/
theorem C4_witness :
    '\n' ∉ ("2. Bolt M8".data : List Char) ∧
    parse_nit_items "2. Bolt M8" = (parseLine "2. Bolt M8".data).toList :=
  ⟨by decide, C4_total.2 "2. Bolt M8" (by decide)⟩

/-- Claim C5: a line that fails the item-start pattern after trimming
contributes no item, so an input all of whose trimmed lines fail the
pattern, in particular one with no digit-prefixed lines, parses to the
empty list, and the line starting with the word Item is skipped. -/
theorem C5_skip :
    (∀ s : String, (∀ l ∈ splitNl s.data, ¬specItemStart (pstrip l)) →
      parse_nit_items s = []) ∧
    (∀ s : String,
      (∀ l ∈ splitNl s.data, ∀ c ∈ (pstrip l).take 1, pdigit c = false) →
      parse_nit_items s = []) ∧
    parse_nit_items "Item 5: something" = [] := by
  have key : ∀ l : List Char, ¬specItemStart (pstrip l) → parseLine l = none := by
    intro l hns
    cases hp : parseLine l with
    | none => rfl
    | some item =>
      exfalso
      simp only [parseLine] at hp
      split at hp
      · simp at hp
      · next ds rest him =>
        exact hns (itemStartMatch_sound him).2.2.2
  refine ⟨?_, ?_, by decide⟩
  · intro s hall
    unfold parse_nit_items
    apply List.filterMap_eq_nil_iff.mpr
    intro l hl
    exact key l (hall l hl)
  · intro s hall
    unfold parse_nit_items
    apply List.filterMap_eq_nil_iff.mpr
    intro l hl
    apply key
    intro hspec
    obtain ⟨ds, d, ws, r, hds, hdig, -, -, -, -, heq⟩ := hspec
    obtain ⟨c0, ds', rfl⟩ := List.exists_cons_of_ne_nil hds
    have hmem : c0 ∈ (pstrip l).take 1 := by
      rw [heq]
      simp
    have := hall l hl c0 hmem
    have hdigc := hdig c0 (by simp)
    rw [hdigc] at this
    exact Bool.true_eq_false.mp this

/-- Witness for C5 at a concrete input with no digit-prefixed lines. -/
theorem C5_witness :
    (∀ l ∈ splitNl ("Notes only\nno items here".data : List Char),
      ∀ c ∈ (pstrip l).take 1, pdigit c = false) ∧
    parse_nit_items "Notes only\nno items here" = [] :=
  ⟨by decide, C5_skip.2.1 "Notes only\nno items here" (by decide)⟩

/-- Claim C8: the parser processes lines independently and in order, so
splitting an input at a newline splits the output list accordingly. -/
theorem C8_append (a b : String) :
    parse_nit_items (a ++ "\n" ++ b) = parse_nit_items a ++ parse_nit_items b := by
  unfold parse_nit_items
  have hdata : (a ++ "\n" ++ b).data = a.data ++ '\n' :: b.data := by
    rw [String.data_append, String.data_append]
    simp
  rw [hdata, splitNl_append, List.filterMap_append]
